import Mathlib

/-!
Verification of the unordered-elements match engine of the
googletest-json-serde repository.

The development shallowly embeds the matchers of
`src/matchers/unordered_elements_are_matcher.rs` and
`src/matchers/contains_each_matcher.rs`: JSON values become an inductive
type, an element matcher becomes a function from values to a match result
together with its description text, and the mutable-`used`-array
backtracking search becomes a pure function that threads the `used` list
explicitly.  Because `matches` is a reserved word in Lean, the `matches`
methods of the source are embedded under the name `matchesValue`.
-/

/-- JSON values as carried by the matchers (`serde_json::Value`); numbers
are restricted to the integers, which is all the examples and tests of the
repository exercise through this engine. -/
inductive Json where
  | null : Json
  | bool (b : Bool) : Json
  | num (n : Int) : Json
  | str (s : String) : Json
  | arr (elems : List Json) : Json
  | obj (fields : List (String × Json)) : Json

instance : Inhabited Json := ⟨Json.null⟩

/-- `googletest::matcher::MatcherResult`. -/
inductive MatcherResult where
  | Match : MatcherResult
  | NoMatch : MatcherResult
deriving DecidableEq

/-- `MatcherResult::is_match`. -/
def MatcherResult.isMatch : MatcherResult → Bool
  | .Match => true
  | .NoMatch => false

/-- An element matcher as the engine consumes it: the `matches` method
(field `matchesValue`) and the `describe` method of the
`Matcher<&Value>` trait object. -/
structure JsonMatcher where
  matchesValue : Json → MatcherResult
  describe : MatcherResult → String

instance : Inhabited JsonMatcher := ⟨⟨fun _ => .NoMatch, fun _ => ""⟩⟩

/-- The `Requirements` variant set of
`unordered_elements_are_matcher.rs`. -/
inductive Requirements where
  | PerfectMatch : Requirements
  | Subset : Requirements
  | Superset : Requirements
deriving DecidableEq

/-- The recursive backtracking search shared by `backtrack` (in the
`PerfectMatch` and `Superset` branches) and `backtrack_subset`: when every
item of `items` is placed the search succeeds; otherwise the head item
scans the candidate indices `0..pool.length` in ascending order — an index
whose `used` flag is set is skipped (`continue`), an accepted index has its
flag set for the recursive call, and on failure of that call the flag is
cleared (here: the continuation resumes from the unchanged `used`) and the
scan continues.  The source's `for` loop with its early `return true` is
exactly `List.any` over the candidate indices. -/
def assignAll {α β : Type} [Inhabited β] (accept : α → β → Bool) :
    List α → List β → List Bool → Bool
  | [], _, _ => true
  | x :: rest, pool, used =>
    (List.range pool.length).any fun j =>
      !(used.getD j false) && accept x (pool.getD j default) &&
        assignAll accept rest pool (used.set j true)

/-- `backtrack` of the `PerfectMatch` and `Superset` branches: assign each
expected matcher a distinct unused actual element that it accepts. -/
def backtrack (expected : List JsonMatcher) (actual : List Json)
    (used : List Bool) : Bool :=
  assignAll (fun e v => (e.matchesValue v).isMatch) expected actual used

/-- `backtrack_subset` of the `Subset` branch: assign each actual element a
distinct unused expected matcher that accepts it. -/
def backtrackSubset (actual : List Json) (matchers : List JsonMatcher)
    (used : List Bool) : Bool :=
  assignAll (fun v m => (m.matchesValue v).isMatch) actual matchers used

/-- The `JsonUnorderedElementsAre` matcher: element matchers plus the
cardinality requirements. -/
structure JsonUnorderedElementsAre where
  elements : List JsonMatcher
  requirements : Requirements

/-- `JsonUnorderedElementsAre::matches`. -/
def JsonUnorderedElementsAre.matchesValue (self : JsonUnorderedElementsAre)
    (actual : Json) : MatcherResult :=
  match actual with
  | .arr arr =>
    match self.requirements with
    | .PerfectMatch =>
      if arr.length ≠ self.elements.length then .NoMatch
      else if backtrack self.elements arr (List.replicate arr.length false)
      then .Match else .NoMatch
    | .Superset =>
      if arr.length < self.elements.length then .NoMatch
      else if backtrack self.elements arr (List.replicate arr.length false)
      then .Match else .NoMatch
    | .Subset =>
      if self.elements.length < arr.length then .NoMatch
      else if backtrackSubset arr self.elements
          (List.replicate self.elements.length false)
      then .Match else .NoMatch
  | _ => .NoMatch

/-- A concrete numeric matcher, `ge(k)` over JSON numbers, used by the
repository's tests and the spec's scenarios. -/
def geMatcher (k : Int) : JsonMatcher where
  matchesValue v :=
    match v with
    | .num n => if k ≤ n then .Match else .NoMatch
    | _ => .NoMatch
  describe _ := "is greater than or equal to " ++ toString k

/-- A concrete equality matcher, `eq(k)` over JSON numbers. -/
def eqNumMatcher (k : Int) : JsonMatcher where
  matchesValue v :=
    match v with
    | .num n => if n = k then .Match else .NoMatch
    | _ => .NoMatch
  describe _ := "is equal to " ++ toString k

/-- Instrumented variant of the backtracking loop body: identical control
flow to the corresponding `for` loop of the source, with a counter added
that records how many times an element matcher's `matches` method is
invoked (one per candidate index that is not skipped by its `used` flag;
the recursive `bt` call reports its own count). -/
def tryCandCount {α β : Type} [Inhabited β] (accept : α → β → Bool)
    (bt : List Bool → Bool × Nat) (x : α) (pool : List β)
    (used : List Bool) : List Nat → Bool × Nat
  | [] => (false, 0)
  | j :: js =>
    if used.getD j false then tryCandCount accept bt x pool used js
    else if accept x (pool.getD j default) then
      let r := bt (used.set j true)
      if r.1 then (true, 1 + r.2)
      else
        let s := tryCandCount accept bt x pool used js
        (s.1, 1 + r.2 + s.2)
    else
      let s := tryCandCount accept bt x pool used js
      (s.1, 1 + s.2)

/-- Instrumented variant of `assignAll`: same search, plus the total number
of `matches` invocations it performs. -/
def assignAllCount {α β : Type} [Inhabited β] (accept : α → β → Bool) :
    List α → List β → List Bool → Bool × Nat
  | [], _, _ => (true, 0)
  | x :: rest, pool, used =>
    tryCandCount accept (assignAllCount accept rest pool) x pool used
      (List.range pool.length)

/-- Instrumented variant of `JsonUnorderedElementsAre::matches`: the same
result together with the number of element-matcher invocations performed.
The early size checks of the source return before any invocation, hence
count 0 there, as does the non-array guard. -/
def JsonUnorderedElementsAre.matchesCount (self : JsonUnorderedElementsAre)
    (actual : Json) : MatcherResult × Nat :=
  match actual with
  | .arr arr =>
    match self.requirements with
    | .PerfectMatch =>
      if arr.length ≠ self.elements.length then (.NoMatch, 0)
      else
        let r := assignAllCount (fun e v => (e.matchesValue v).isMatch)
          self.elements arr (List.replicate arr.length false)
        (if r.1 then .Match else .NoMatch, r.2)
    | .Superset =>
      if arr.length < self.elements.length then (.NoMatch, 0)
      else
        let r := assignAllCount (fun e v => (e.matchesValue v).isMatch)
          self.elements arr (List.replicate arr.length false)
        (if r.1 then .Match else .NoMatch, r.2)
    | .Subset =>
      if self.elements.length < arr.length then (.NoMatch, 0)
      else
        let r := assignAllCount (fun v m => (m.matchesValue v).isMatch)
          arr self.elements (List.replicate self.elements.length false)
        (if r.1 then .Match else .NoMatch, r.2)
  | _ => (.NoMatch, 0)

/-- The size precondition of each `Requirements` mode, as checked first by
`JsonUnorderedElementsAre::matches`: `PerfectMatch` requires n = m,
`Superset` requires n ≥ m, `Subset` requires m ≥ n (n the actual length, m
the number of expected matchers).  `true` means the precondition is
violated. -/
def sizePreconditionViolated (elements : List JsonMatcher)
    (req : Requirements) (arr : List Json) : Bool :=
  match req with
  | .PerfectMatch => arr.length != elements.length
  | .Superset => decide (arr.length < elements.length)
  | .Subset => decide (elements.length < arr.length)

mutual

/-- Rust's `{:?}` (Debug) rendering of a `serde_json::Value`, as
interpolated by the explanation messages: `Null`, `Bool(b)`, `Number(n)`,
`String("s")`, `Array [..]`, `Object {..}`. -/
def jsonDebug : Json → String
  | .null => "Null"
  | .bool b => if b then "Bool(true)" else "Bool(false)"
  | .num n => "Number(" ++ toString n ++ ")"
  | .str s => "String(\"" ++ s ++ "\")"
  | .arr xs => "Array [" ++ jsonDebugList xs ++ "]"
  | .obj fs => "Object \x7b" ++ jsonDebugFields fs ++ "\x7d"

/-- Comma-joined Debug rendering of a list of JSON values. -/
def jsonDebugList : List Json → String
  | [] => ""
  | [x] => jsonDebug x
  | x :: y :: rest => jsonDebug x ++ ", " ++ jsonDebugList (y :: rest)

/-- Comma-joined Debug rendering of the fields of a JSON object. -/
def jsonDebugFields : List (String × Json) → String
  | [] => ""
  | [(k, v)] => "\"" ++ k ++ "\": " ++ jsonDebug v
  | (k, v) :: f :: rest =>
    "\"" ++ k ++ "\": " ++ jsonDebug v ++ ", " ++ jsonDebugFields (f :: rest)

end

/-- The scan of `explain_match` over the expected matchers (`PerfectMatch`
and `Superset` arms, and the first loop of
`JsonContainsEachMatcher::explain_match`): the first expected matcher, with
its index, that matches no element of the actual array; the inner loop
with its `break` is `List.any`. -/
def firstUnmatchedExpected :
    List JsonMatcher → List Json → Nat → Option (Nat × JsonMatcher)
  | [], _, _ => none
  | e :: rest, arr, i =>
    if arr.any fun v => (e.matchesValue v).isMatch then
      firstUnmatchedExpected rest arr (i + 1)
    else some (i, e)

/-- The scan of `explain_match` over the actual elements (`Subset` arm):
the first actual element, with its index, that no expected matcher
accepts. -/
def firstUnmatchedActual :
    List Json → List JsonMatcher → Nat → Option (Nat × Json)
  | [], _, _ => none
  | v :: rest, elements, i =>
    if elements.any fun e => (e.matchesValue v).isMatch then
      firstUnmatchedActual rest elements (i + 1)
    else some (i, v)

/-- `JsonUnorderedElementsAre::explain_match`. -/
def JsonUnorderedElementsAre.explainMatch (self : JsonUnorderedElementsAre)
    (actual : Json) : String :=
  match actual with
  | .arr arr =>
    match self.requirements with
    | .PerfectMatch | .Superset =>
      match firstUnmatchedExpected self.elements arr 0 with
      | some (i, e) =>
        "where no element matches expected #" ++ toString i ++ ": " ++
          e.describe .Match
      | none => "whose elements all match"
    | .Subset =>
      match firstUnmatchedActual arr self.elements 0 with
      | some (i, v) =>
        "where element #" ++ toString i ++ " = " ++ jsonDebug v ++
          " had no candidate matcher: no candidate matcher accepted it"
      | none => "whose elements all match"
  | _ => "which is not a JSON array"

/-- The `JsonContainsEachMatcher` of `contains_each_matcher.rs`. -/
structure JsonContainsEachMatcher where
  elements : List JsonMatcher

/-- `find_matching_assignment` of `JsonContainsEachMatcher::matches`: the
same backtracking search as `backtrack`. -/
def findMatchingAssignment (expected : List JsonMatcher)
    (actual : List Json) (used : List Bool) : Bool :=
  assignAll (fun e v => (e.matchesValue v).isMatch) expected actual used

/-- `JsonContainsEachMatcher::matches`. -/
def JsonContainsEachMatcher.matchesValue (self : JsonContainsEachMatcher)
    (actual : Json) : MatcherResult :=
  match actual with
  | .arr arr =>
    if arr.length < self.elements.length then .NoMatch
    else if findMatchingAssignment self.elements arr
        (List.replicate arr.length false)
    then .Match else .NoMatch
  | _ => .NoMatch

/-- The inner loop of the best-match rendering of
`JsonContainsEachMatcher::explain_match`: the first expected-matcher index
that is not yet used and accepts the element, scanning in ascending
order. -/
def firstFreeMatchIndex (v : Json) :
    List JsonMatcher → List Bool → Nat → Option Nat
  | [], _, _ => none
  | e :: rest, used, i =>
    if used.getD i false then firstFreeMatchIndex v rest used (i + 1)
    else if (e.matchesValue v).isMatch then some i
    else firstFreeMatchIndex v rest used (i + 1)

/-- The greedy first-fit rendering loop of
`JsonContainsEachMatcher::explain_match`: one line per actual element,
marking the matched expected index used, returning the lines and the final
`used` flags. -/
def greedyMatchLines (elements : List JsonMatcher) :
    List Json → Nat → List Bool → List String × List Bool
  | [], _, used => ([], used)
  | v :: rest, ai, used =>
    match firstFreeMatchIndex v elements used 0 with
    | some ei =>
      let line := "  Actual element " ++ jsonDebug v ++ " at index " ++
        toString ai ++ " matched expected element `" ++
        ((elements.getD ei default).describe .Match).trim ++
        "` at index " ++ toString ei ++ "."
      let r := greedyMatchLines elements rest (ai + 1) (used.set ei true)
      (line :: r.1, r.2)
    | none =>
      let line := "  Actual element " ++ jsonDebug v ++ " at index " ++
        toString ai ++ " did not match any remaining expected element."
      let r := greedyMatchLines elements rest (ai + 1) used
      (line :: r.1, r.2)

/-- The trailing loop of `JsonContainsEachMatcher::explain_match`: one line
per expected matcher whose `used` flag is still clear. -/
def unmatchedExpectedLines :
    List JsonMatcher → List Bool → Nat → List String
  | [], _, _ => []
  | e :: rest, used, i =>
    if used.getD i false then unmatchedExpectedLines rest used (i + 1)
    else
      ("  Expected element `" ++ (e.describe .Match).trim ++ "` at index " ++
        toString i ++ " did not match any remaining actual element.") ::
        unmatchedExpectedLines rest used (i + 1)

/-- `JsonContainsEachMatcher::explain_match`: first the scan for an
expected matcher without any candidate (evaluating element matchers even
when the size precondition already fails), with a combined
size-and-unmatchable message in that case; only then the size-only
message; else the greedy best-match rendering. -/
def JsonContainsEachMatcher.explainMatch (self : JsonContainsEachMatcher)
    (actual : Json) : String :=
  match actual with
  | .arr arr =>
    let isSizeInsufficient := arr.length < self.elements.length
    match firstUnmatchedExpected self.elements arr 0 with
    | some (i, _) =>
      if isSizeInsufficient then
        "which has size " ++ toString arr.length ++ " (expected at least " ++
          toString self.elements.length ++
          ") and no element matching the expected element #" ++ toString i
      else
        "which has no element matching the expected element #" ++ toString i
    | none =>
      if isSizeInsufficient then
        "which has size " ++ toString arr.length ++ " (expected at least " ++
          toString self.elements.length ++ ")"
      else
        let r := greedyMatchLines self.elements arr 0
          (List.replicate self.elements.length false)
        "which does not have a superset match with the expected elements. The best match found was:\n" ++
          String.intercalate "\n" (r.1 ++ unmatchedExpectedLines self.elements r.2 0)
  | _ => "which is not a JSON array"

/-- Setting one flag leaves every other position of the `used` list
unchanged. -/
theorem getD_set_ne {l : List Bool} {i j : Nat} (v d : Bool) (h : i ≠ j) :
    (l.set i v).getD j d = l.getD j d := by
  simp [List.getD_eq_getElem?_getD, List.getElem?_set_ne h]

/-- One step of the search, reshaped: choosing a fresh accepted index `j`
for the head item and an injective assignment of the tail avoiding `j` is
the same as an injective assignment of the whole list. -/
theorem assignAll_step_iff {α β : Type} [Inhabited β] (accept : α → β → Bool)
    (x : α) (rest : List α) (pool : List β) (used : List Bool)
    (hlen : used.length = pool.length) :
    (∃ j, j < pool.length ∧ used.getD j false = false ∧
        accept x (pool.getD j default) = true ∧
        ∃ g : Fin rest.length → Fin pool.length,
          Function.Injective g ∧
          (∀ i, (used.set j true).getD (g i).val false = false) ∧
          (∀ i, accept (rest.get i) (pool.get (g i)) = true)) ↔
      (∃ f : Fin (x :: rest).length → Fin pool.length,
        Function.Injective f ∧
        (∀ i, used.getD (f i).val false = false) ∧
        (∀ i, accept ((x :: rest).get i) (pool.get (f i)) = true)) := by
  have hgetD : ∀ (j : Nat) (hj : j < pool.length),
      pool.get ⟨j, hj⟩ = pool.getD j default := by
    intro j hj
    rw [List.getD_eq_getElem _ _ hj, List.get_eq_getElem]
  constructor
  · rintro ⟨j, hj, hfree, hacc, g, hginj, hgfree, hgacc⟩
    have hne : ∀ i, g i ≠ ⟨j, hj⟩ := by
      intro i hgi
      have h1 := hgfree i
      rw [hgi] at h1
      have hjl : j < (used.set j true).length := by
        simpa [List.length_set, hlen] using hj
      rw [List.getD_eq_getElem _ _ hjl] at h1
      simp [List.getElem_set_self] at h1
    refine ⟨Fin.cons ⟨j, hj⟩ g, ?_, ?_, ?_⟩
    · refine Fin.cons_injective_of_injective ?_ hginj
      rintro ⟨i, hi⟩
      exact hne i hi
    · intro i
      cases i using Fin.cases with
      | zero => simpa using hfree
      | succ i =>
        have h1 := hgfree i
        rw [getD_set_ne] at h1
        · simpa using h1
        · intro hji
          exact hne i (Fin.eq_of_val_eq hji.symm)
    · intro i
      cases i using Fin.cases with
      | zero =>
        rw [show ((x :: rest).get ((0 : Fin (rest.length + 1)) :
            Fin (x :: rest).length)) = x from rfl]
        simp only [Fin.cons_zero]
        rw [hgetD j hj]
        exact hacc
      | succ i => simpa using hgacc i
  · rintro ⟨f, hinj, hfree, hacc⟩
    refine ⟨(f (0 : Fin (rest.length + 1))).val,
      (f (0 : Fin (rest.length + 1))).isLt,
      hfree (0 : Fin (rest.length + 1)), ?_,
      fun i => f i.succ, ?_, ?_, ?_⟩
    · rw [← hgetD _ (f (0 : Fin (rest.length + 1))).isLt]
      have h0 := hacc (0 : Fin (rest.length + 1))
      rw [show ((x :: rest).get ((0 : Fin (rest.length + 1)) :
          Fin (x :: rest).length)) = x from rfl] at h0
      exact h0
    · exact hinj.comp (Fin.succ_injective _)
    · intro i
      rw [getD_set_ne]
      · simpa using hfree i.succ
      · intro hji
        have heq : f i.succ = f (0 : Fin (rest.length + 1)) :=
          Fin.eq_of_val_eq hji.symm
        have := hinj heq
        exact (Fin.succ_ne_zero i) this
    · intro i
      simpa using hacc i.succ

/-- The backtracking search succeeds exactly when an injective assignment
of all items to accepted, not-yet-used pool indices exists: the search is
sound and complete. -/
theorem assignAll_eq_true_iff {α β : Type} [Inhabited β]
    (accept : α → β → Bool) :
    ∀ (items : List α) (pool : List β) (used : List Bool),
      used.length = pool.length →
      (assignAll accept items pool used = true ↔
        ∃ f : Fin items.length → Fin pool.length,
          Function.Injective f ∧
          (∀ i, used.getD (f i).val false = false) ∧
          (∀ i, accept (items.get i) (pool.get (f i)) = true))
  | [], pool, used, _ => by
    simp only [assignAll]
    constructor
    · intro _
      exact ⟨Fin.elim0, fun a => a.elim0, fun i => i.elim0, fun i => i.elim0⟩
    · intro _
      trivial
  | x :: rest, pool, used, hlen => by
    rw [← assignAll_step_iff accept x rest pool used hlen]
    simp only [assignAll, List.any_eq_true, List.mem_range, Bool.and_eq_true,
      Bool.not_eq_true']
    constructor
    · rintro ⟨j, hj, ⟨hfree, hacc⟩, hrec⟩
      refine ⟨j, hj, hfree, hacc, ?_⟩
      exact (assignAll_eq_true_iff accept rest pool (used.set j true)
        (by simp [hlen])).mp hrec
    · rintro ⟨j, hj, hfree, hacc, hex⟩
      refine ⟨j, hj, ⟨hfree, hacc⟩, ?_⟩
      exact (assignAll_eq_true_iff accept rest pool (used.set j true)
        (by simp [hlen])).mpr hex

/-- A fresh `used` list has every flag clear. -/
theorem replicate_getD_false (n k : Nat) :
    (List.replicate n false).getD k false = false := by
  rw [List.getD_eq_getElem?_getD]
  exact List.getElem?_getD_replicate_default_eq _ _ _

/-- `backtrack` from a fresh `used` list decides the existence of an
injective accepted assignment of expected matchers to actual elements. -/
theorem backtrack_replicate_iff (expected : List JsonMatcher)
    (actual : List Json) :
    backtrack expected actual (List.replicate actual.length false) = true ↔
      ∃ f : Fin expected.length → Fin actual.length,
        Function.Injective f ∧
        ∀ i, ((expected.get i).matchesValue (actual.get (f i))).isMatch = true := by
  rw [backtrack, assignAll_eq_true_iff _ _ _ _ (by simp)]
  constructor
  · rintro ⟨f, hinj, _, hacc⟩
    exact ⟨f, hinj, hacc⟩
  · rintro ⟨f, hinj, hacc⟩
    exact ⟨f, hinj, fun i => replicate_getD_false _ _, hacc⟩

/-- `backtrack_subset` from a fresh `used` list decides the existence of an
injective assignment of actual elements to accepting expected matchers. -/
theorem backtrackSubset_replicate_iff (actual : List Json)
    (matchers : List JsonMatcher) :
    backtrackSubset actual matchers
        (List.replicate matchers.length false) = true ↔
      ∃ f : Fin actual.length → Fin matchers.length,
        Function.Injective f ∧
        ∀ i, ((matchers.get (f i)).matchesValue (actual.get i)).isMatch = true := by
  rw [backtrackSubset, assignAll_eq_true_iff _ _ _ _ (by simp)]
  constructor
  · rintro ⟨f, hinj, _, hacc⟩
    exact ⟨f, hinj, hacc⟩
  · rintro ⟨f, hinj, hacc⟩
    exact ⟨f, hinj, fun i => replicate_getD_false _ _, hacc⟩

/-- The final result of a `matches` branch is `Match` exactly when its
backtracking search succeeded. -/
theorem ite_match_iff (b : Bool) :
    (if b then MatcherResult.Match else MatcherResult.NoMatch) =
      MatcherResult.Match ↔ b = true := by
  cases b <;> simp

/-- `matches` with `PerfectMatch` succeeds exactly when the lengths agree
and an injective accepted assignment of expected matchers to distinct
actual elements exists. -/
theorem perfectMatch_match_iff (elements : List JsonMatcher)
    (arr : List Json) :
    (JsonUnorderedElementsAre.mk elements .PerfectMatch).matchesValue
        (.arr arr) = .Match ↔
      arr.length = elements.length ∧
        ∃ f : Fin elements.length → Fin arr.length,
          Function.Injective f ∧
          ∀ i, ((elements.get i).matchesValue (arr.get (f i))).isMatch = true := by
  by_cases h : arr.length = elements.length
  · have hred : (JsonUnorderedElementsAre.mk elements
        .PerfectMatch).matchesValue (.arr arr) =
        (if backtrack elements arr (List.replicate arr.length false)
          then MatcherResult.Match else MatcherResult.NoMatch) := by
      simp [JsonUnorderedElementsAre.matchesValue, h]
    rw [hred, ite_match_iff, backtrack_replicate_iff]
    simp [h]
  · have hred : (JsonUnorderedElementsAre.mk elements
        .PerfectMatch).matchesValue (.arr arr) = .NoMatch := by
      simp [JsonUnorderedElementsAre.matchesValue, h]
    rw [hred]
    constructor
    · intro hc
      exact MatcherResult.noConfusion hc
    · rintro ⟨h1, -⟩
      exact absurd h1 h

/-- `matches` with `Superset` succeeds exactly when all expected matchers
fit and an injective accepted assignment of expected matchers to distinct
actual elements exists. -/
theorem superset_match_iff (elements : List JsonMatcher) (arr : List Json) :
    (JsonUnorderedElementsAre.mk elements .Superset).matchesValue
        (.arr arr) = .Match ↔
      elements.length ≤ arr.length ∧
        ∃ f : Fin elements.length → Fin arr.length,
          Function.Injective f ∧
          ∀ i, ((elements.get i).matchesValue (arr.get (f i))).isMatch = true := by
  by_cases h : arr.length < elements.length
  · have hred : (JsonUnorderedElementsAre.mk elements
        .Superset).matchesValue (.arr arr) = .NoMatch := by
      simp [JsonUnorderedElementsAre.matchesValue, h]
    rw [hred]
    constructor
    · intro hc
      exact MatcherResult.noConfusion hc
    · rintro ⟨hle, -⟩
      exact absurd h (not_lt.mpr hle)
  · have hle : elements.length ≤ arr.length := not_lt.mp h
    have hred : (JsonUnorderedElementsAre.mk elements
        .Superset).matchesValue (.arr arr) =
        (if backtrack elements arr (List.replicate arr.length false)
          then MatcherResult.Match else MatcherResult.NoMatch) := by
      simp [JsonUnorderedElementsAre.matchesValue, h]
    rw [hred, ite_match_iff, backtrack_replicate_iff]
    simp [hle]

/-- A permutation of a list induces a bijection of its index sets that
preserves the stored elements. -/
theorem perm_get_equiv {β : Type} {l l' : List β} (h : l.Perm l') :
    ∃ σ : Fin l.length ≃ Fin l'.length, ∀ k, l'.get (σ k) = l.get k := by
  induction h with
  | nil => exact ⟨Equiv.refl _, fun k => k.elim0⟩
  | cons x h ih =>
    obtain ⟨σ, hσ⟩ := ih
    refine ⟨(finSuccEquiv _).trans ((Equiv.optionCongr σ).trans
      (finSuccEquiv _).symm), ?_⟩
    intro k
    cases k using Fin.cases with
    | zero => simp
    | succ i =>
      simp
      simpa using hσ i
  | swap x y l =>
    refine ⟨Equiv.swap ⟨0, by simp⟩ ⟨1, by simp⟩, ?_⟩
    intro k
    cases k using Fin.cases with
    | zero =>
      simp [Equiv.swap_apply_def, Fin.ext_iff]
    | succ i =>
      cases i using Fin.cases with
      | zero =>
        simp [Equiv.swap_apply_def, Fin.ext_iff]
      | succ i2 =>
        simp [Equiv.swap_apply_def, Fin.ext_iff]
  | trans h1 h2 ih1 ih2 =>
    obtain ⟨σ1, hσ1⟩ := ih1
    obtain ⟨σ2, hσ2⟩ := ih2
    refine ⟨σ1.trans σ2, fun k => ?_⟩
    rw [Equiv.trans_apply, hσ2 (σ1 k), hσ1 k]

/-- The boolean component of the instrumented loop body agrees with the
uninstrumented loop body (stated against the `List.any` form of the
loop). -/
theorem tryCandCount_fst {α β : Type} [Inhabited β] (accept : α → β → Bool)
    (btC : List Bool → Bool × Nat) (bt : List Bool → Bool)
    (hbt : ∀ u, (btC u).1 = bt u) (x : α) (pool : List β)
    (used : List Bool) :
    ∀ js : List Nat,
      (tryCandCount accept btC x pool used js).1 =
        js.any fun j => !(used.getD j false) &&
          accept x (pool.getD j default) && bt (used.set j true)
  | [] => by simp [tryCandCount]
  | j :: js => by
    have IH := tryCandCount_fst accept btC bt hbt x pool used js
    have hbts : bt (used.set j true) = (btC (used.set j true)).1 :=
      (hbt _).symm
    simp only [tryCandCount, List.any_cons]
    by_cases hu : used.getD j false = true
    · rw [if_pos hu, hu]
      simp only [Bool.not_true, Bool.false_and, Bool.false_or]
      exact IH
    · have hu2 : used.getD j false = false := by
        cases hc : used.getD j false
        · rfl
        · exact absurd hc hu
      rw [if_neg hu, hu2]
      simp only [Bool.not_false, Bool.true_and]
      by_cases ha : accept x (pool.getD j default) = true
      · rw [if_pos ha, ha]
        simp only [Bool.true_and]
        cases hb : (btC (used.set j true)).1 with
        | true =>
          rw [if_pos rfl, hbts, hb]
          simp
        | false =>
          rw [if_neg Bool.false_ne_true, hbts, hb]
          simpa using IH
      · have ha2 : accept x (pool.getD j default) = false := by
          cases hc : accept x (pool.getD j default)
          · rfl
          · exact absurd hc ha
        rw [if_neg ha, ha2]
        simp only [Bool.false_and, Bool.false_or]
        exact IH

/-- The boolean component of the instrumented search agrees with
`assignAll`. -/
theorem assignAllCount_fst {α β : Type} [Inhabited β]
    (accept : α → β → Bool) :
    ∀ (items : List α) (pool : List β) (used : List Bool),
      (assignAllCount accept items pool used).1 =
        assignAll accept items pool used
  | [], _, _ => rfl
  | x :: rest, pool, used => by
    simp only [assignAllCount, assignAll]
    exact tryCandCount_fst accept (assignAllCount accept rest pool)
      (assignAll accept rest pool)
      (fun u => assignAllCount_fst accept rest pool u) x pool used
      (List.range pool.length)

/-- The instrumented `matches` computes the same verdict as `matches`. -/
theorem matchesCount_fst (self : JsonUnorderedElementsAre) (actual : Json) :
    (self.matchesCount actual).1 = self.matchesValue actual := by
  obtain ⟨elements, req⟩ := self
  cases actual with
  | arr arr =>
    cases req with
    | PerfectMatch =>
      by_cases h : arr.length = elements.length
      · simp [JsonUnorderedElementsAre.matchesCount,
          JsonUnorderedElementsAre.matchesValue, h, backtrack,
          assignAllCount_fst]
      · simp [JsonUnorderedElementsAre.matchesCount,
          JsonUnorderedElementsAre.matchesValue, h]
    | Superset =>
      by_cases h : arr.length < elements.length
      · simp [JsonUnorderedElementsAre.matchesCount,
          JsonUnorderedElementsAre.matchesValue, h]
      · simp [JsonUnorderedElementsAre.matchesCount,
          JsonUnorderedElementsAre.matchesValue, h, backtrack,
          assignAllCount_fst]
    | Subset =>
      by_cases h : elements.length < arr.length
      · simp [JsonUnorderedElementsAre.matchesCount,
          JsonUnorderedElementsAre.matchesValue, h]
      · simp [JsonUnorderedElementsAre.matchesCount,
          JsonUnorderedElementsAre.matchesValue, h, backtrackSubset,
          assignAllCount_fst]
  | null => rfl
  | bool b => rfl
  | num n => rfl
  | str s => rfl
  | obj fields => rfl

/-- C1: `matches` with `Requirements::PerfectMatch` on a JSON array of
length n and m expected matchers returns `Match` exactly when n = m and a
bijection pairs each expected matcher with a distinct actual element that
it accepts. -/
theorem perfect_match_iff_exists_bijection (elements : List JsonMatcher)
    (arr : List Json) :
    (JsonUnorderedElementsAre.mk elements .PerfectMatch).matchesValue
        (.arr arr) = .Match ↔
      arr.length = elements.length ∧
        ∃ f : Fin elements.length → Fin arr.length,
          Function.Bijective f ∧
          ∀ i, ((elements.get i).matchesValue (arr.get (f i))).isMatch = true := by
  rw [perfectMatch_match_iff]
  constructor
  · rintro ⟨h, f, hinj, hacc⟩
    refine ⟨h, f, ?_, hacc⟩
    rw [Fintype.bijective_iff_injective_and_card]
    exact ⟨hinj, by simp [h]⟩
  · rintro ⟨h, f, hbij, hacc⟩
    exact ⟨h, f, hbij.injective, hacc⟩

/-- C2: `matches` with `Requirements::Subset` on a JSON array of length n
and m expected matchers returns `Match` exactly when m ≥ n and an
injective assignment pairs every actual element with a distinct matcher
that accepts it (extra matchers may remain unused); in particular the m < n
case fails at the initial size check. -/
theorem subset_match_iff_exists_injection (elements : List JsonMatcher)
    (arr : List Json) :
    (JsonUnorderedElementsAre.mk elements .Subset).matchesValue
        (.arr arr) = .Match ↔
      arr.length ≤ elements.length ∧
        ∃ f : Fin arr.length → Fin elements.length,
          Function.Injective f ∧
          ∀ i, ((elements.get (f i)).matchesValue (arr.get i)).isMatch = true := by
  by_cases h : elements.length < arr.length
  · have hred : (JsonUnorderedElementsAre.mk elements .Subset).matchesValue
        (.arr arr) = .NoMatch := by
      simp [JsonUnorderedElementsAre.matchesValue, h]
    rw [hred]
    constructor
    · intro hc
      exact MatcherResult.noConfusion hc
    · rintro ⟨hle, -⟩
      exact absurd h (not_lt.mpr hle)
  · have hle : arr.length ≤ elements.length := not_lt.mp h
    have hred : (JsonUnorderedElementsAre.mk elements .Subset).matchesValue
        (.arr arr) =
        (if backtrackSubset arr elements
            (List.replicate elements.length false)
          then MatcherResult.Match else MatcherResult.NoMatch) := by
      simp [JsonUnorderedElementsAre.matchesValue, h]
    rw [hred, ite_match_iff, backtrackSubset_replicate_iff]
    simp [hle]

/-- C3 counterexample: with `PerfectMatch`, two expected matchers and one
actual element, `matches` performs 0 element-matcher invocations, not
n·m = 1·2 = 2: the size check short-circuits before any invocation, so the
claimed "exactly n·m invocations, no invocation skipped" is false on this
input. -/
theorem size_mismatch_invocations_zero_not_nm :
    ((JsonUnorderedElementsAre.mk [geMatcher 2, geMatcher 3]
      .PerfectMatch).matchesCount (.arr [.num 2])).2 = 0 ∧
    ((JsonUnorderedElementsAre.mk [geMatcher 2, geMatcher 3]
      .PerfectMatch).matchesCount (.arr [.num 2])).2 ≠ 1 * 2 := by
  decide

/-- C3 amended: element matchers are invoked lazily by the backtracking
search, not exactly once per pair; in particular, whenever the size
precondition of the requested mode is violated, `matches` invokes no
element matcher at all. -/
theorem size_precondition_no_invocation (elements : List JsonMatcher)
    (req : Requirements) (arr : List Json)
    (h : sizePreconditionViolated elements req arr = true) :
    ((JsonUnorderedElementsAre.mk elements req).matchesCount
      (.arr arr)).2 = 0 := by
  cases req with
  | PerfectMatch =>
    have h2 : arr.length ≠ elements.length := by
      simpa [sizePreconditionViolated] using h
    simp [JsonUnorderedElementsAre.matchesCount, h2]
  | Superset =>
    have h2 : arr.length < elements.length := by
      simpa [sizePreconditionViolated] using h
    simp [JsonUnorderedElementsAre.matchesCount, h2]
  | Subset =>
    have h2 : elements.length < arr.length := by
      simpa [sizePreconditionViolated] using h
    simp [JsonUnorderedElementsAre.matchesCount, h2]

/-- C3 amended, witness: `Superset` with two expected matchers and one
actual element performs zero invocations. -/
theorem size_precondition_no_invocation_witness :
    ((JsonUnorderedElementsAre.mk [geMatcher 1, geMatcher 2]
      .Superset).matchesCount (.arr [.num 5])).2 = 0 :=
  size_precondition_no_invocation [geMatcher 1, geMatcher 2] .Superset
    [.num 5] (by decide)

/-- C4: the code's `JsonContainsEachMatcher::explain_match` on a
size-violating input (n = 1 < m = 4) does not stop at a single size
message: it first evaluates element matchers looking for an expected
matcher without any candidate, and returns a combined
size-and-unmatchable message. -/
theorem contains_each_explain_size_violation_combined :
    (JsonContainsEachMatcher.mk [eqNumMatcher 2, eqNumMatcher 3,
      eqNumMatcher 4, eqNumMatcher 5]).explainMatch (.arr [.num 2]) =
      "which has size 1 (expected at least 4) and no element matching the expected element #1" := by
  decide

/-- C5: with `PerfectMatch` and n ≠ m, `matches` returns `NoMatch` and
performs zero element-matcher invocations — the size check short-circuits
before any compatibility evaluation. -/
theorem perfect_match_size_mismatch_short_circuit
    (elements : List JsonMatcher) (arr : List Json)
    (h : arr.length ≠ elements.length) :
    (JsonUnorderedElementsAre.mk elements .PerfectMatch).matchesValue
        (.arr arr) = .NoMatch ∧
      ((JsonUnorderedElementsAre.mk elements .PerfectMatch).matchesCount
        (.arr arr)).2 = 0 := by
  constructor
  · simp [JsonUnorderedElementsAre.matchesValue, h]
  · simp [JsonUnorderedElementsAre.matchesCount, h]

/-- C5 witness: one matcher, two actual elements. -/
theorem perfect_match_size_mismatch_short_circuit_witness :
    (JsonUnorderedElementsAre.mk [geMatcher 7] .PerfectMatch).matchesValue
        (.arr [.num 1, .num 2]) = .NoMatch ∧
      ((JsonUnorderedElementsAre.mk [geMatcher 7]
        .PerfectMatch).matchesCount (.arr [.num 1, .num 2])).2 = 0 :=
  perfect_match_size_mismatch_short_circuit [geMatcher 7]
    [.num 1, .num 2] (by decide)

/-- C6 counterexample: Scenario B of the spec is false on the code — with
actual = [1, 2, 3] and expected [≥2, ≥3, ≥4] under `Superset`, `matches`
does not return `Match`, because no element satisfies ≥4. -/
theorem scenario_b_superset_not_match :
    ¬ ((JsonUnorderedElementsAre.mk [geMatcher 2, geMatcher 3, geMatcher 4]
      .Superset).matchesValue (.arr [.num 1, .num 2, .num 3]) =
        MatcherResult.Match) := by
  decide

/-- C6 amended: with actual = [1, 2, 3] and expected [≥2, ≥3, ≥4] under
`Superset`, `matches` returns `NoMatch`: the predicate ≥4 accepts no
element of the array, so the three predicates cannot all be paired. -/
theorem scenario_b_superset_no_match_ge4_unmatchable :
    (JsonUnorderedElementsAre.mk [geMatcher 2, geMatcher 3, geMatcher 4]
      .Superset).matchesValue (.arr [.num 1, .num 2, .num 3]) =
        MatcherResult.NoMatch ∧
    ([Json.num 1, Json.num 2, Json.num 3].all
      fun v => !((geMatcher 4).matchesValue v).isMatch) = true := by
  decide

/-- C7: with n = m, permuting the actual array never changes the
`PerfectMatch` verdict. -/
theorem perfect_match_perm_invariant (elements : List JsonMatcher)
    (a b : List Json) (_hlen : a.length = elements.length)
    (hperm : a.Perm b) :
    (JsonUnorderedElementsAre.mk elements .PerfectMatch).matchesValue
        (.arr a) =
      (JsonUnorderedElementsAre.mk elements .PerfectMatch).matchesValue
        (.arr b) := by
  obtain ⟨σ, hσ⟩ := perm_get_equiv hperm
  have key : ((JsonUnorderedElementsAre.mk elements
      .PerfectMatch).matchesValue (.arr a) = .Match) ↔
      ((JsonUnorderedElementsAre.mk elements .PerfectMatch).matchesValue
        (.arr b) = .Match) := by
    rw [perfectMatch_match_iff, perfectMatch_match_iff]
    constructor
    · rintro ⟨h1, f, hinj, hacc⟩
      refine ⟨hperm.length_eq.symm.trans h1, fun i => σ (f i), ?_, ?_⟩
      · exact (Equiv.injective σ).comp hinj
      · intro i
        rw [hσ (f i)]
        exact hacc i
    · rintro ⟨h1, f, hinj, hacc⟩
      refine ⟨hperm.length_eq.trans h1, fun i => σ.symm (f i), ?_, ?_⟩
      · exact (Equiv.injective σ.symm).comp hinj
      · intro i
        have h2 := hσ (σ.symm (f i))
        rw [Equiv.apply_symm_apply] at h2
        rw [← h2]
        exact hacc i
  cases hA : (JsonUnorderedElementsAre.mk elements
      .PerfectMatch).matchesValue (.arr a) with
  | Match => exact (key.mp hA).symm
  | NoMatch =>
    cases hB : (JsonUnorderedElementsAre.mk elements
        .PerfectMatch).matchesValue (.arr b) with
    | Match =>
      have h2 := key.mpr hB
      rw [hA] at h2
      exact h2
    | NoMatch => rfl

/-- C7 witness: swapping the two elements of [1, 2] leaves the verdict
unchanged. -/
theorem perfect_match_perm_invariant_witness :
    (JsonUnorderedElementsAre.mk [eqNumMatcher 1, eqNumMatcher 2]
      .PerfectMatch).matchesValue (.arr [.num 1, .num 2]) =
    (JsonUnorderedElementsAre.mk [eqNumMatcher 1, eqNumMatcher 2]
      .PerfectMatch).matchesValue (.arr [.num 2, .num 1]) :=
  perfect_match_perm_invariant [eqNumMatcher 1, eqNumMatcher 2]
    [.num 1, .num 2] [.num 2, .num 1] (by decide)
    (List.Perm.swap (Json.num 2) (Json.num 1) [])

/-- C8: a `Superset` match survives appending arbitrary extra actual
elements. -/
theorem superset_append_monotone (elements : List JsonMatcher)
    (a extra : List Json)
    (h : (JsonUnorderedElementsAre.mk elements .Superset).matchesValue
      (.arr a) = .Match) :
    (JsonUnorderedElementsAre.mk elements .Superset).matchesValue
      (.arr (a ++ extra)) = .Match := by
  rw [superset_match_iff] at h
  rw [superset_match_iff]
  obtain ⟨hle, f, hinj, hacc⟩ := h
  have hle2 : a.length ≤ (a ++ extra).length := by simp
  refine ⟨le_trans hle hle2, fun i => Fin.castLE hle2 (f i), ?_, ?_⟩
  · exact (Fin.castLE_injective hle2).comp hinj
  · intro i
    have hget : (a ++ extra).get (Fin.castLE hle2 (f i)) = a.get (f i) := by
      rw [List.get_eq_getElem, List.get_eq_getElem]
      exact List.getElem_append_left (f i).isLt
    rw [hget]
    exact hacc i

/-- C8 witness: [5] matches [≥1] under `Superset`; so does [5, 0]. -/
theorem superset_append_monotone_witness :
    (JsonUnorderedElementsAre.mk [geMatcher 1] .Superset).matchesValue
      (.arr ([Json.num 5] ++ [Json.num 0])) = .Match :=
  superset_append_monotone [geMatcher 1] [.num 5] [.num 0] (by decide)

/-- C9: the engine is deterministic — `explain_match` and `matches` are
pure functions of the matcher and the actual value, so two invocations on
identical inputs produce identical text and identical verdicts. -/
theorem engine_deterministic (s1 s2 : JsonUnorderedElementsAre)
    (a1 a2 : Json) (hs : s1 = s2) (ha : a1 = a2) :
    s1.explainMatch a1 = s2.explainMatch a2 ∧
      s1.matchesValue a1 = s2.matchesValue a2 := by
  subst hs
  subst ha
  exact ⟨rfl, rfl⟩

/-- C9 witness. -/
theorem engine_deterministic_witness :
    (JsonUnorderedElementsAre.mk [geMatcher 2] .PerfectMatch).explainMatch
        (.arr [.num 1]) =
      (JsonUnorderedElementsAre.mk [geMatcher 2] .PerfectMatch).explainMatch
        (.arr [.num 1]) ∧
    (JsonUnorderedElementsAre.mk [geMatcher 2] .PerfectMatch).matchesValue
        (.arr [.num 1]) =
      (JsonUnorderedElementsAre.mk [geMatcher 2] .PerfectMatch).matchesValue
        (.arr [.num 1]) :=
  engine_deterministic _ _ _ _ rfl rfl

/-- C10: on any non-array JSON value, for every `Requirements` mode,
`matches` returns `NoMatch` with zero element-matcher invocations, and
`explain_match` returns "which is not a JSON array". -/
theorem non_array_no_match_explains (self : JsonUnorderedElementsAre)
    (v : Json) (h : ∀ xs, v ≠ Json.arr xs) :
    self.matchesValue v = .NoMatch ∧ (self.matchesCount v).2 = 0 ∧
      self.explainMatch v = "which is not a JSON array" := by
  cases v with
  | arr xs => exact absurd rfl (h xs)
  | null => exact ⟨rfl, rfl, rfl⟩
  | bool b => exact ⟨rfl, rfl, rfl⟩
  | num n => exact ⟨rfl, rfl, rfl⟩
  | str s => exact ⟨rfl, rfl, rfl⟩
  | obj fields => exact ⟨rfl, rfl, rfl⟩

/-- C10 witness: a JSON string under `Subset`. -/
theorem non_array_no_match_explains_witness :
    (JsonUnorderedElementsAre.mk [geMatcher 1] .Subset).matchesValue
        (.str "x") = .NoMatch ∧
      ((JsonUnorderedElementsAre.mk [geMatcher 1] .Subset).matchesCount
        (.str "x")).2 = 0 ∧
      (JsonUnorderedElementsAre.mk [geMatcher 1] .Subset).explainMatch
        (.str "x") = "which is not a JSON array" :=
  non_array_no_match_explains _ _ (fun _ h => Json.noConfusion h)
